import Mathlib

/-!
Shallow embedding of `fpv_auto_trimmer.py` (motion-detection video trimmer).

The detection core reads a video stream, skips the first `SKIP_SECONDS`
seconds of frames, establishes a grayscale reference frame, then scans the
remaining frames: each transition (previous frame, current frame) is turned
into a scalar motion magnitude by an optical-flow routine, the magnitude is
appended to a bounded history queue, and the rolling average of the queue is
compared against a threshold to decide the takeoff ("event") frame.

Modelling choices:
- Motion magnitudes are rationals (`ℚ`); the Python code uses floats, but
  every claim under scrutiny involves exactly representable values and the
  decision logic only compares means, so exact rational arithmetic is the
  faithful abstraction.
- The numerics of `calculate_motion` (resize, grayscale, Farneback optical
  flow, central crop, mean of absolute displacements) are abstracted into a
  stream-supplied function `mag : ℕ → ℚ` giving the magnitude of the
  transition ending at each absolute frame index.  The scan threads the
  reference frame strictly sequentially, so the transition analyzed at loop
  iteration `n` is between consecutive stream frames; `mag` is indexed by
  the later frame of the transition.
- `cv2.VideoCapture.read` is modelled by a read position: a read at
  position `pos` succeeds iff `pos < length` (the number of actually
  decodable frames), and advances the position.  Reported metadata
  (`CAP_PROP_FPS`, `CAP_PROP_FRAME_COUNT`) may disagree with `length`,
  exactly as for a truncated file.
- `print_progress` performs two divisions (by `total_frames` and by
  `frame_num`); the scan model records the pair `(frame_num, total_frames)`
  at every point where the Python code would call `print_progress`, so that
  the division-safety claim is about the divisions actually performed.
- `cap.release()` is modelled by a `released` flag in the scan result,
  recording whether the exit path taken executes line 36 (`cap.release()`).
- Rational arithmetic in Lean is deliberately non-reducible, so alongside
  the faithful `ℚ` pipeline there is an integer-magnitude mirror pipeline
  (suffix `Z`) whose threshold test multiplies out the mean; correspondence
  lemmas prove the two agree on integer-valued inputs, and all concrete
  evaluations run on the mirror.
-/

namespace FPV

/-- `SKIP_SECONDS = 4` (line 9). -/
def SKIP_SECONDS : ℕ := 4

/-- `FRAMES_PER_SECOND = 30` (line 11): assumed processing rate, also the
progress-print cadence. -/
def FRAMES_PER_SECOND : ℕ := 30

/-- `history_size = 5` (line 95). -/
def history_size : ℕ := 5

/-- Abstract video stream: `length` decodable frames, reported metadata
`fps` and `total_frames`, and the motion magnitude `mag f` of the
transition ending at absolute frame `f`. -/
structure VideoStream where
  length : ℕ
  fps : ℕ
  total_frames : ℕ
  mag : ℕ → ℚ

/-- State of the inline Motion Smoother / Decision Engine inside
`process_frames_for_takeoff` (lines 94–96): the bounded history queue and
the write-once takeoff frame. -/
structure EngineState where
  motion_history : List ℚ
  takeoff_frame : Option ℕ
  deriving DecidableEq

/-- `np.mean(motion_history)` (line 112): arithmetic mean of the values
currently held. -/
def rollingAverage (hist : List ℚ) : ℚ := hist.sum / (hist.length : ℚ)

/-- Lines 109–110: after the append, if the history exceeds capacity
`history_size`, evict the oldest element (`motion_history.pop(0)`). -/
def evictOldest {α : Type} (l : List α) : List α :=
  if history_size < l.length then l.drop 1 else l

/-- Lines 108–115 of `process_frames_for_takeoff`, for one incoming
magnitude `m` at frame index `frame_num`: append to history, evict the
oldest element if capacity `history_size` is exceeded, recompute the
rolling average, and set the takeoff frame to `max(0, frame_num -
history_size)` if it is unset and the average exceeds the threshold. -/
def engineStep (motion_threshold : ℚ) (frame_num : ℕ) (m : ℚ)
    (st : EngineState) : EngineState :=
  let hist2 := evictOldest (st.motion_history ++ [m])
  let avg_motion := rollingAverage hist2
  let takeoff :=
    if st.takeoff_frame = none ∧ motion_threshold < avg_motion then
      some (max 0 (frame_num - history_size))
    else st.takeoff_frame
  ⟨hist2, takeoff⟩

/-- Run the decision engine over a list of magnitudes, numbering them from
`frame_num` upward. -/
def runEngineAux (motion_threshold : ℚ) : ℕ → List ℚ → EngineState → EngineState
  | _, [], st => st
  | frame_num, m :: ms, st =>
      runEngineAux motion_threshold (frame_num + 1) ms
        (engineStep motion_threshold frame_num m st)

/-- The decision engine applied to a magnitude sequence, with frame numbers
starting at 1 (as in `for frame_num in range(1, total_frames)`, line 98)
and the initial state of lines 94–96 (empty history, unset takeoff). -/
def runEngine (motion_threshold : ℚ) (mags : List ℚ) : EngineState :=
  runEngineAux motion_threshold 1 mags ⟨[], none⟩

/-- The rolling average the engine computes at step `n` (taken right after
the `n`-th magnitude is appended, line 112): the average over the history
held by the engine after processing the first `n` magnitudes. -/
def avgAtStep (motion_threshold : ℚ) (mags : List ℚ) (n : ℕ) : ℚ :=
  rollingAverage (runEngine motion_threshold (mags.take n)).motion_history

/-- State of the scan loop in `process_frames_for_takeoff`: the stream read
position, the engine state, and the arguments `(frame_num, total_frames)`
of every `print_progress` call made so far. -/
structure ScanState where
  pos : ℕ
  engine : EngineState
  progress_calls : List (ℕ × ℕ)
  deriving DecidableEq

/-- Lines 99–100 of the scan loop: every `FRAMES_PER_SECOND`-th frame
number triggers `print_progress(frame_num, total_frames, start_time)`;
the model records the `(frame_num, total_frames)` argument pair. -/
def recordProgress (total frame_num : ℕ) (pc : List (ℕ × ℕ)) :
    List (ℕ × ℕ) :=
  if frame_num % FRAMES_PER_SECOND = 0 then pc ++ [(frame_num, total)] else pc

/-- The loop body of `process_frames_for_takeoff` (lines 98–117) over an
explicit list of frame numbers.  Per iteration: record the progress call if
due (lines 99–100); then a frame is read (`cap.read()`, line 102), breaking
out of the loop on failure (lines 103–104); otherwise the magnitude of the
transition ending at the frame just read is fed to the engine and the
position advances. -/
def processFrames (s : VideoStream) (motion_threshold : ℚ) (total : ℕ) :
    List ℕ → ScanState → ScanState
  | [], st => st
  | frame_num :: rest, st =>
      let pc := recordProgress total frame_num st.progress_calls
      if st.pos < s.length then
        processFrames s motion_threshold total rest
          { pos := st.pos + 1
            engine := engineStep motion_threshold frame_num (s.mag st.pos) st.engine
            progress_calls := pc }
      else ⟨st.pos, st.engine, pc⟩

/-- `process_frames_for_takeoff` (lines 93–119), started at read position
`pos`: iterate `frame_num` over `range(1, total_frames)` with empty history
and unset takeoff. -/
def process_frames_for_takeoff (s : VideoStream) (pos : ℕ)
    (motion_threshold : ℚ) : ScanState :=
  processFrames s motion_threshold s.total_frames
    (List.range' 1 (s.total_frames - 1)) ⟨pos, ⟨[], none⟩, []⟩

/-- `skip_initial_setup_frames` (lines 51–57) from read position `pos`:
perform `n` reads, returning `(False, position)` as soon as one fails and
`(True, position)` if all succeed.  (The Python function returns only the
boolean; the position is the implicit capture state.) -/
def skipFrames (s : VideoStream) : ℕ → ℕ → Bool × ℕ
  | 0, pos => (true, pos)
  | n + 1, pos =>
      if pos < s.length then skipFrames s n (pos + 1) else (false, pos)

/-- Result of `detect_motion`: the returned pair `(takeoff_frame, None)`,
whether `cap.release()` (line 36) was executed on the exit path taken, and
the recorded `print_progress` calls. -/
structure DetectResult where
  takeoff : Option ℕ
  landing : Option ℕ
  released : Bool
  progress_calls : List (ℕ × ℕ)
  deriving DecidableEq

/-- `detect_motion` (lines 15–37): skip the first `SKIP_SECONDS * fps`
frames, returning early (without releasing the capture) if the stream ends
during the skip (lines 23–24); read the initial reference frame, returning
early (again without releasing) if that read fails (lines 26–28); otherwise
run the scan loop, release the capture, and return the takeoff frame with a
`None` landing frame (lines 30–37). -/
def detect_motion (s : VideoStream) (motion_threshold : ℚ) : DetectResult :=
  let skipRes := skipFrames s (SKIP_SECONDS * s.fps) 0
  if skipRes.1 = false then ⟨none, none, false, []⟩
  else if skipRes.2 < s.length then
    let st := process_frames_for_takeoff s (skipRes.2 + 1) motion_threshold
    ⟨st.engine.takeoff_frame, none, true, st.progress_calls⟩
  else ⟨none, none, false, []⟩

/-- `estimated_total_time` in `print_initial_status` (lines 45–46): the one
division performed before the scan; its denominator is the constant
`FRAMES_PER_SECOND`. -/
def print_initial_status_estimate (total_frames : ℕ) : ℚ :=
  (total_frames : ℚ) / (FRAMES_PER_SECOND : ℚ)

/-- The two divisions in `print_progress` (lines 86–87): progress
percentage (denominator `total_frames`) and estimated remaining time
(denominator `frame_num`). -/
def print_progress_divisions (elapsed : ℚ) (frame_num total_frames : ℕ) :
    ℚ × ℚ :=
  (((frame_num : ℚ) / (total_frames : ℚ)) * 100,
   (elapsed / (frame_num : ℚ)) * ((total_frames : ℚ) - (frame_num : ℚ)))

/-- The per-file driver decision in `process_videos` (line 150):
`trim_video` is invoked iff `takeoff is not None`. -/
def process_video_action (r : DetectResult) : Bool := r.takeoff.isSome

/-! ### Integer-magnitude mirror pipeline

Rational arithmetic does not reduce in the kernel, so concrete runs are
evaluated on a mirror of the pipeline whose magnitudes are integers and
whose threshold test `T < sum / len` is multiplied out to `T * len < sum`
(equivalent since the history is nonempty whenever the test runs).  The
`..._cast` lemmas below prove the mirror computes exactly what the `ℚ`
pipeline computes on integer-valued inputs. -/

/-- Mirror of `VideoStream` with integer magnitudes. -/
structure VideoStreamZ where
  length : ℕ
  fps : ℕ
  total_frames : ℕ
  mag : ℕ → ℤ

/-- Cast an integer-magnitude stream to the `ℚ` stream it denotes. -/
def VideoStreamZ.toStream (s : VideoStreamZ) : VideoStream :=
  ⟨s.length, s.fps, s.total_frames, fun f => ((s.mag f : ℤ) : ℚ)⟩

/-- Mirror of `EngineState` with integer magnitudes. -/
structure EngineStateZ where
  motion_history : List ℤ
  takeoff_frame : Option ℕ
  deriving DecidableEq

/-- Cast the integer history to the `ℚ` history it denotes. -/
def castHist (l : List ℤ) : List ℚ := l.map Int.cast

/-- Cast the integer engine state to the `ℚ` engine state it denotes. -/
def EngineStateZ.toEngine (st : EngineStateZ) : EngineState :=
  ⟨castHist st.motion_history, st.takeoff_frame⟩

/-- Mirror of `engineStep`: the test `T < sum hist / len hist` is replaced
by the equivalent `T * len hist < sum hist`. -/
def engineStepZ (tz : ℤ) (frame_num : ℕ) (m : ℤ) (st : EngineStateZ) :
    EngineStateZ :=
  let hist2 := evictOldest (st.motion_history ++ [m])
  let takeoff :=
    if st.takeoff_frame = none ∧ tz * (hist2.length : ℤ) < hist2.sum then
      some (max 0 (frame_num - history_size))
    else st.takeoff_frame
  ⟨hist2, takeoff⟩

/-- Mirror of `runEngineAux`. -/
def runEngineAuxZ (tz : ℤ) : ℕ → List ℤ → EngineStateZ → EngineStateZ
  | _, [], st => st
  | frame_num, m :: ms, st =>
      runEngineAuxZ tz (frame_num + 1) ms (engineStepZ tz frame_num m st)

/-- Mirror of `runEngine`. -/
def runEngineZ (tz : ℤ) (mags : List ℤ) : EngineStateZ :=
  runEngineAuxZ tz 1 mags ⟨[], none⟩

/-- Mirror of `ScanState`. -/
structure ScanStateZ where
  pos : ℕ
  engine : EngineStateZ
  progress_calls : List (ℕ × ℕ)
  deriving DecidableEq

/-- Cast the integer scan state to the `ℚ` scan state it denotes. -/
def ScanStateZ.toScan (st : ScanStateZ) : ScanState :=
  ⟨st.pos, st.engine.toEngine, st.progress_calls⟩

/-- Mirror of `processFrames`. -/
def processFramesZ (s : VideoStreamZ) (tz : ℤ) (total : ℕ) :
    List ℕ → ScanStateZ → ScanStateZ
  | [], st => st
  | frame_num :: rest, st =>
      let pc := recordProgress total frame_num st.progress_calls
      if st.pos < s.length then
        processFramesZ s tz total rest
          { pos := st.pos + 1
            engine := engineStepZ tz frame_num (s.mag st.pos) st.engine
            progress_calls := pc }
      else ⟨st.pos, st.engine, pc⟩

/-- Mirror of `process_frames_for_takeoff`. -/
def process_frames_for_takeoffZ (s : VideoStreamZ) (pos : ℕ) (tz : ℤ) :
    ScanStateZ :=
  processFramesZ s tz s.total_frames
    (List.range' 1 (s.total_frames - 1)) ⟨pos, ⟨[], none⟩, []⟩

/-- Mirror of `skipFrames`. -/
def skipFramesZ (s : VideoStreamZ) : ℕ → ℕ → Bool × ℕ
  | 0, pos => (true, pos)
  | n + 1, pos =>
      if pos < s.length then skipFramesZ s n (pos + 1) else (false, pos)

/-- Mirror of `detect_motion`; it produces the same `DetectResult` type
(the result carries no rationals). -/
def detect_motionZ (s : VideoStreamZ) (tz : ℤ) : DetectResult :=
  let skipRes := skipFramesZ s (SKIP_SECONDS * s.fps) 0
  if skipRes.1 = false then ⟨none, none, false, []⟩
  else if skipRes.2 < s.length then
    let st := process_frames_for_takeoffZ s (skipRes.2 + 1) tz
    ⟨st.engine.takeoff_frame, none, true, st.progress_calls⟩
  else ⟨none, none, false, []⟩

/-! ### Concrete streams used by individual claims -/

/-- The stream of claim C1: 300 decodable frames, reported
`total_frame_count` 300, reported frame rate 30; every transition among
frames 0–149 has magnitude 0 and every transition from frame 150 onward has
magnitude 20. -/
def c1Stream : VideoStream :=
  ⟨300, 30, 300, fun f => if f < 150 then (0 : ℚ) else 20⟩

/-- Integer mirror of `c1Stream`. -/
def c1StreamZ : VideoStreamZ :=
  ⟨300, 30, 300, fun f => if f < 150 then (0 : ℤ) else 20⟩

/-- A stream whose very first analyzed transition has magnitude 100, so
the rolling average crosses the default threshold at frame 1 and the
backdated event index is `max(0, 1 - 5) = 0`. -/
def c10Stream : VideoStream := ⟨10, 0, 5, fun _ => (100 : ℚ)⟩

/-- Integer mirror of `c10Stream`. -/
def c10StreamZ : VideoStreamZ := ⟨10, 0, 5, fun _ => (100 : ℤ)⟩

/-- Magnitude sequence for claim C2's counterexample: below threshold 8 on
the first six transitions, constant 20 afterwards. -/
def c2Mags : List ℚ := [0, 0, 0, 0, 0, 0, 20, 20, 20, 20, 20, 20]

/-- Integer mirror of `c2Mags`. -/
def c2MagsZ : List ℤ := [0, 0, 0, 0, 0, 0, 20, 20, 20, 20, 20, 20]

/-- Magnitude sequence for claim C5's witness: an immediate crossing at
frame 1, followed by quiet frames and a second sustained burst that would
re-trigger the threshold if later crossings were not ignored. -/
def c5MagsZ : List ℤ := [100, 0, 0, 0, 0, 0, 100, 100, 100, 100]

/-- A small stream for claim C3's witness: reported frame rate 0 (so the
skip phase is empty), 5 reported frames, 10 decodable frames. -/
def c3Stream : VideoStream := ⟨10, 0, 5, fun f => (f : ℚ)⟩

/-- Magnitude sequence for claim C7's witness. -/
def c7Mags : List ℚ := [1, 2, 3]

end FPV

namespace FPV

/-! ### Correspondence between the `ℚ` pipeline and its integer mirror -/

theorem castHist_append (l : List ℤ) (m : ℤ) :
    castHist (l ++ [m]) = castHist l ++ [(m : ℚ)] := by
  simp [castHist]

theorem castHist_length (l : List ℤ) : (castHist l).length = l.length :=
  List.length_map l _

theorem evictOldest_castHist (l : List ℤ) :
    evictOldest (castHist l) = castHist (evictOldest l) := by
  simp only [evictOldest, castHist_length]
  split
  · exact (List.map_drop _ l 1).symm
  · rfl

theorem evictOldest_ne_nil {l : List ℤ} (h : l ≠ []) : evictOldest l ≠ [] := by
  simp only [evictOldest]
  split
  · intro hc
    have hlen := congrArg List.length hc
    simp only [List.length_drop, List.length_nil] at hlen
    rename_i hgt
    simp only [history_size] at hgt
    omega
  · exact h

theorem avg_gt_iff (t : ℤ) (l : List ℤ) (hl : l ≠ []) :
    ((t : ℚ) < rollingAverage (castHist l)) ↔ t * (l.length : ℤ) < l.sum := by
  have h0 : 0 < (l.length : ℚ) := by
    have := List.length_pos.mpr hl
    exact_mod_cast this
  unfold rollingAverage
  rw [castHist_length]
  rw [castHist, ← Int.cast_list_sum, lt_div_iff₀ h0]
  exact_mod_cast Iff.rfl

theorem engineStep_cast (tz : ℤ) (n : ℕ) (m : ℤ) (st : EngineStateZ) :
    engineStep (tz : ℚ) n (m : ℚ) st.toEngine = (engineStepZ tz n m st).toEngine := by
  obtain ⟨h, tk⟩ := st
  have hne : evictOldest (h ++ [m]) ≠ [] := evictOldest_ne_nil (by simp)
  have hEv : evictOldest (castHist h ++ [(m : ℚ)]) = castHist (evictOldest (h ++ [m])) := by
    rw [← castHist_append, evictOldest_castHist]
  simp only [engineStep, engineStepZ, EngineStateZ.toEngine, hEv]
  simp only [avg_gt_iff tz (evictOldest (h ++ [m])) hne, castHist_length]

theorem runEngineAux_cast (tz : ℤ) (n : ℕ) (ms : List ℤ) (st : EngineStateZ) :
    runEngineAux (tz : ℚ) n (castHist ms) st.toEngine
      = (runEngineAuxZ tz n ms st).toEngine := by
  induction ms generalizing n st with
  | nil => rfl
  | cons m rest ih =>
      show runEngineAux (tz : ℚ) n ((m : ℚ) :: castHist rest) st.toEngine = _
      rw [runEngineAux, runEngineAuxZ, engineStep_cast]
      exact ih (n + 1) (engineStepZ tz n m st)

theorem runEngine_cast (tz : ℤ) (ms : List ℤ) :
    runEngine (tz : ℚ) (castHist ms) = (runEngineZ tz ms).toEngine :=
  runEngineAux_cast tz 1 ms ⟨[], none⟩

theorem runEngine_cast_takeoff (tz : ℤ) (ms : List ℤ) :
    (runEngine (tz : ℚ) (castHist ms)).takeoff_frame
      = (runEngineZ tz ms).takeoff_frame := by
  rw [runEngine_cast]; rfl

theorem skipFrames_toStream (sz : VideoStreamZ) (n pos : ℕ) :
    skipFrames sz.toStream n pos = skipFramesZ sz n pos := by
  induction n generalizing pos with
  | zero => rfl
  | succ k ih =>
      show (if pos < sz.length then skipFrames sz.toStream k (pos + 1)
            else (false, pos)) = _
      rw [skipFramesZ]
      split <;> simp_all

theorem processFrames_cast (sz : VideoStreamZ) (tz : ℤ) (total : ℕ)
    (L : List ℕ) (st : ScanStateZ) :
    processFrames sz.toStream (tz : ℚ) total L st.toScan
      = (processFramesZ sz tz total L st).toScan := by
  induction L generalizing st with
  | nil => rfl
  | cons frame_num rest ih =>
      show (if st.pos < sz.length then
              processFrames sz.toStream (tz : ℚ) total rest
                ⟨st.pos + 1,
                 engineStep (tz : ℚ) frame_num ((sz.mag st.pos : ℚ)) st.engine.toEngine,
                 recordProgress total frame_num st.progress_calls⟩
            else ⟨st.pos, st.engine.toEngine,
                  recordProgress total frame_num st.progress_calls⟩)
          = (processFramesZ sz tz total (frame_num :: rest) st).toScan
      rw [processFramesZ]
      show _ = (if st.pos < sz.length then
                  processFramesZ sz tz total rest
                    ⟨st.pos + 1, engineStepZ tz frame_num (sz.mag st.pos) st.engine,
                     recordProgress total frame_num st.progress_calls⟩
                else ⟨st.pos, st.engine,
                      recordProgress total frame_num st.progress_calls⟩).toScan
      by_cases hpos : st.pos < sz.length
      · rw [if_pos hpos, if_pos hpos, engineStep_cast]
        exact ih ⟨st.pos + 1, engineStepZ tz frame_num (sz.mag st.pos) st.engine,
                  recordProgress total frame_num st.progress_calls⟩
      · rw [if_neg hpos, if_neg hpos]
        rfl

theorem process_frames_for_takeoff_cast (sz : VideoStreamZ) (pos : ℕ) (tz : ℤ) :
    process_frames_for_takeoff sz.toStream pos (tz : ℚ)
      = (process_frames_for_takeoffZ sz pos tz).toScan :=
  processFrames_cast sz tz sz.total_frames
    (List.range' 1 (sz.total_frames - 1)) ⟨pos, ⟨[], none⟩, []⟩

theorem detect_motion_cast (sz : VideoStreamZ) (tz : ℤ) :
    detect_motion sz.toStream (tz : ℚ) = detect_motionZ sz tz := by
  rw [detect_motion, detect_motionZ, skipFrames_toStream]
  simp only [show sz.toStream.fps = sz.fps from rfl,
    show sz.toStream.length = sz.length from rfl]
  by_cases hskip : (skipFramesZ sz (SKIP_SECONDS * sz.fps) 0).1 = false
  · rw [if_pos hskip, if_pos hskip]
  · rw [if_neg hskip, if_neg hskip]
    by_cases hpos : (skipFramesZ sz (SKIP_SECONDS * sz.fps) 0).2 < sz.length
    · rw [if_pos hpos, if_pos hpos, process_frames_for_takeoff_cast]
      rfl
    · rw [if_neg hpos, if_neg hpos]

/-! ### Structure of the decision engine -/

theorem engineStep_motion_history (t : ℚ) (n : ℕ) (m : ℚ) (st : EngineState) :
    (engineStep t n m st).motion_history = evictOldest (st.motion_history ++ [m]) :=
  rfl

theorem engineStep_takeoff_some (t : ℚ) (n : ℕ) (m : ℚ) (st : EngineState)
    (v : ℕ) (h : st.takeoff_frame = some v) :
    (engineStep t n m st).takeoff_frame = some v := by
  simp [engineStep, h]

theorem runEngineAux_takeoff_some (t : ℚ) (ms : List ℚ) (n : ℕ)
    (st : EngineState) (v : ℕ) (h : st.takeoff_frame = some v) :
    (runEngineAux t n ms st).takeoff_frame = some v := by
  induction ms generalizing n st with
  | nil => exact h
  | cons m rest ih =>
      show (runEngineAux t (n + 1) rest (engineStep t n m st)).takeoff_frame = some v
      exact ih (n + 1) _ (engineStep_takeoff_some t n m st v h)

theorem runEngineAux_append (t : ℚ) (xs ys : List ℚ) (n : ℕ) (st : EngineState) :
    runEngineAux t n (xs ++ ys) st
      = runEngineAux t (n + xs.length) ys (runEngineAux t n xs st) := by
  induction xs generalizing n st with
  | nil => simp [runEngineAux]
  | cons x rest ih =>
      show runEngineAux t (n + 1) (rest ++ ys) (engineStep t n x st)
          = runEngineAux t (n + (rest.length + 1)) ys
              (runEngineAux t (n + 1) rest (engineStep t n x st))
      rw [ih]
      congr 1
      omega

theorem runEngineAux_history (t : ℚ) (ms : List ℚ) :
    ∀ (n : ℕ) (st : EngineState), st.motion_history.length ≤ history_size →
      (runEngineAux t n ms st).motion_history
        = (st.motion_history ++ ms).drop
            (st.motion_history.length + ms.length - history_size) := by
  induction ms with
  | nil =>
      intro n st h
      have e0 : st.motion_history.length + ([] : List ℚ).length - history_size
          = 0 := by
        simp only [List.length_nil]
        omega
      show st.motion_history = _
      rw [e0, List.drop_zero, List.append_nil]
  | cons m rest ih =>
      intro n st h
      show (runEngineAux t (n + 1) rest (engineStep t n m st)).motion_history = _
      have hstep : (engineStep t n m st).motion_history
          = evictOldest (st.motion_history ++ [m]) := rfl
      have hlapp : (st.motion_history ++ [m]).length
          = st.motion_history.length + 1 := by simp
      by_cases hlen : st.motion_history.length = history_size
      · have hev : evictOldest (st.motion_history ++ [m])
            = (st.motion_history ++ [m]).drop 1 := by
          unfold evictOldest
          rw [if_pos (by rw [hlapp]; omega)]
        have hlen1 : ((st.motion_history ++ [m]).drop 1).length = history_size := by
          rw [List.length_drop, hlapp]
          omega
        have hrec := ih (n + 1) (engineStep t n m st)
          (by rw [hstep, hev, hlen1])
        rw [hrec, hstep, hev, hlen1]
        have e2 : history_size + rest.length - history_size = rest.length := by
          omega
        have e3 : st.motion_history.length + (m :: rest).length - history_size
            = 1 + rest.length := by
          simp only [List.length_cons]
          omega
        have e4 : st.motion_history ++ m :: rest
            = (st.motion_history ++ [m]) ++ rest := by simp
        rw [e2, e3, e4]
        have key := (List.drop_drop rest.length 1
          ((st.motion_history ++ [m]) ++ rest)).symm
        have key2 : ((st.motion_history ++ [m]) ++ rest).drop 1
            = (st.motion_history ++ [m]).drop 1 ++ rest :=
          @List.drop_append_of_le_length ℚ (st.motion_history ++ [m]) rest 1
            (by rw [hlapp]; omega)
        rw [key, key2]
      · have hev : evictOldest (st.motion_history ++ [m])
            = st.motion_history ++ [m] := by
          unfold evictOldest
          rw [if_neg (by rw [hlapp]; omega)]
        have hrec := ih (n + 1) (engineStep t n m st)
          (by rw [hstep, hev, hlapp]; omega)
        rw [hrec, hstep, hev]
        have e4 : st.motion_history ++ m :: rest
            = (st.motion_history ++ [m]) ++ rest := by simp
        have e5 : (st.motion_history ++ [m]).length + rest.length - history_size
            = st.motion_history.length + (m :: rest).length - history_size := by
          rw [hlapp]
          simp only [List.length_cons]
          omega
        rw [e5, e4]

theorem runEngine_history (t : ℚ) (mags : List ℚ) :
    (runEngine t mags).motion_history
      = mags.drop (mags.length - history_size) := by
  have := runEngineAux_history t mags 1 ⟨[], none⟩ (by simp [history_size])
  simpa using this

theorem runEngine_append (t : ℚ) (xs ys : List ℚ) :
    runEngine t (xs ++ ys)
      = runEngineAux t (1 + xs.length) ys (runEngine t xs) :=
  runEngineAux_append t xs ys 1 ⟨[], none⟩

theorem runEngine_take_takeoff_some (t : ℚ) (mags : List ℚ) (n : ℕ) (v : ℕ)
    (h : (runEngine t (mags.take n)).takeoff_frame = some v) :
    (runEngine t mags).takeoff_frame = some v := by
  have hsplit := runEngine_append t (mags.take n) (mags.drop n)
  rw [List.take_append_drop] at hsplit
  rw [hsplit]
  exact runEngineAux_takeoff_some t _ _ _ v h

theorem runEngine_take_succ (t : ℚ) (mags : List ℚ) (n : ℕ)
    (h : n < mags.length) :
    runEngine t (mags.take (n + 1))
      = engineStep t (n + 1) (mags.get ⟨n, h⟩) (runEngine t (mags.take n)) := by
  have e1 : mags.take (n + 1) = mags.take n ++ [mags.get ⟨n, h⟩] := by
    rw [List.take_succ, List.getElem?_eq_getElem h]
    rfl
  have e2 : (mags.take n).length = n := by
    rw [List.length_take]
    omega
  rw [e1, runEngine_append, e2, Nat.add_comm 1 n]
  rfl

theorem engineStep_takeoff_set (t : ℚ) (n : ℕ) (m : ℚ) (st : EngineState)
    (h1 : st.takeoff_frame = none)
    (h2 : t < rollingAverage (engineStep t n m st).motion_history) :
    (engineStep t n m st).takeoff_frame = some (max 0 (n - history_size)) := by
  show (if st.takeoff_frame = none
          ∧ t < rollingAverage (evictOldest (st.motion_history ++ [m])) then
          some (max 0 (n - history_size))
        else st.takeoff_frame) = some (max 0 (n - history_size))
  rw [if_pos ⟨h1, h2⟩]

theorem engineStep_takeoff_none_iff (t : ℚ) (n : ℕ) (m : ℚ) (st : EngineState) :
    (engineStep t n m st).takeoff_frame = none
      ↔ st.takeoff_frame = none
        ∧ ¬(t < rollingAverage (engineStep t n m st).motion_history) := by
  show (if st.takeoff_frame = none
          ∧ t < rollingAverage (evictOldest (st.motion_history ++ [m])) then
          some (max 0 (n - history_size))
        else st.takeoff_frame) = none ↔ _
  by_cases h1 : st.takeoff_frame = none
  · by_cases h2 : t < rollingAverage (evictOldest (st.motion_history ++ [m]))
    · rw [if_pos ⟨h1, h2⟩]
      simp [h1, h2, engineStep_motion_history]
    · rw [if_neg (by tauto)]
      simp [h1, h2, engineStep_motion_history]
  · rw [if_neg (by tauto)]
    simp [h1]

theorem runEngine_take_none_iff (t : ℚ) (mags : List ℚ) :
    ∀ n, n ≤ mags.length →
      ((runEngine t (mags.take n)).takeoff_frame = none
        ↔ ∀ j, 1 ≤ j → j ≤ n → ¬(t < avgAtStep t mags j)) := by
  intro n
  induction n with
  | zero =>
      intro _
      constructor
      · intro _ j h1 h2
        exact absurd h2 (by omega)
      · intro _
        rfl
  | succ k ih =>
      intro hk
      have hklt : k < mags.length := by omega
      rw [runEngine_take_succ t mags k hklt, engineStep_takeoff_none_iff,
        ← runEngine_take_succ t mags k hklt, ih (by omega)]
      constructor
      · rintro ⟨hall, hnot⟩ j h1 h2
        rcases Nat.lt_or_ge j (k + 1) with hlt | hge
        · exact hall j h1 (by omega)
        · have hj : j = k + 1 := by omega
          subst hj
          exact hnot
      · intro hall
        exact ⟨fun j hj1 hj2 => hall j hj1 (by omega),
          hall (k + 1) (by omega) (by omega)⟩

theorem runEngine_first_crossing (t : ℚ) (mags : List ℚ) (f : ℕ)
    (h1 : 1 ≤ f) (h2 : f ≤ mags.length)
    (hc : t < avgAtStep t mags f)
    (hmin : ∀ j, 1 ≤ j → j < f → ¬(t < avgAtStep t mags j)) :
    (runEngine t mags).takeoff_frame = some (max 0 (f - history_size)) := by
  have hprev : (runEngine t (mags.take (f - 1))).takeoff_frame = none :=
    (runEngine_take_none_iff t mags (f - 1) (by omega)).mpr
      (fun j hj1 hj2 => hmin j hj1 (by omega))
  have hflt : f - 1 < mags.length := by omega
  have hstep := runEngine_take_succ t mags (f - 1) hflt
  rw [show f - 1 + 1 = f by omega] at hstep
  have htake : (runEngine t (mags.take f)).takeoff_frame
      = some (max 0 (f - history_size)) := by
    rw [hstep]
    exact engineStep_takeoff_set t f _ _ hprev (by rw [← hstep]; exact hc)
  exact runEngine_take_takeoff_some t mags f _ htake

/-! ### The skip phase -/

theorem skipFrames_all (s : VideoStream) :
    ∀ (n pos : ℕ), pos + n ≤ s.length → skipFrames s n pos = (true, pos + n) := by
  intro n
  induction n with
  | zero =>
      intro pos _
      rfl
  | succ k ih =>
      intro pos h
      show (if pos < s.length then skipFrames s k (pos + 1)
            else (false, pos)) = (true, pos + (k + 1))
      rw [if_pos (by omega), ih (pos + 1) (by omega),
        show pos + 1 + k = pos + (k + 1) by omega]

theorem skipFrames_short (s : VideoStream) :
    ∀ (n pos : ℕ), 1 ≤ n → s.length < pos + n →
      (skipFrames s n pos).1 = false := by
  intro n
  induction n with
  | zero =>
      intro pos h0 _
      exact absurd h0 (by omega)
  | succ k ih =>
      intro pos _ hlen
      show (if pos < s.length then skipFrames s k (pos + 1)
            else (false, pos)).1 = false
      by_cases hp : pos < s.length
      · rw [if_pos hp]
        exact ih (pos + 1) (by omega) (by omega)
      · rw [if_neg hp]

/-! ### Progress reporting -/

theorem processFrames_progress (s : VideoStream) (t : ℚ) (total : ℕ) :
    ∀ (L : List ℕ) (st : ScanState),
      (∀ p ∈ st.progress_calls, p.1 ≠ 0 ∧ p.2 ≠ 0) →
      (∀ n ∈ L, 1 ≤ n ∧ n < total) →
      ∀ p ∈ (processFrames s t total L st).progress_calls,
        p.1 ≠ 0 ∧ p.2 ≠ 0 := by
  intro L
  induction L with
  | nil =>
      intro st hst _
      exact hst
  | cons fn rest ih =>
      intro st hst hL
      have hfn := hL fn (by simp)
      have hrest : ∀ n ∈ rest, 1 ≤ n ∧ n < total :=
        fun n hn => hL n (by simp [hn])
      have hpc : ∀ p ∈ recordProgress total fn st.progress_calls,
          p.1 ≠ 0 ∧ p.2 ≠ 0 := by
        intro p hp
        unfold recordProgress at hp
        by_cases hmod : fn % FRAMES_PER_SECOND = 0
        · rw [if_pos hmod] at hp
          rcases List.mem_append.mp hp with hmem | hmem
          · exact hst p hmem
          · have hpeq : p = (fn, total) := by simpa using hmem
            subst hpeq
            exact ⟨by omega, by omega⟩
        · rw [if_neg hmod] at hp
          exact hst p hp
      show ∀ p ∈ (if st.pos < s.length then
              processFrames s t total rest
                ⟨st.pos + 1, engineStep t fn (s.mag st.pos) st.engine,
                 recordProgress total fn st.progress_calls⟩
            else ⟨st.pos, st.engine,
                  recordProgress total fn st.progress_calls⟩).progress_calls,
          p.1 ≠ 0 ∧ p.2 ≠ 0
      by_cases hpos : st.pos < s.length
      · rw [if_pos hpos]
        exact ih _ hpc hrest
      · rw [if_neg hpos]
        exact hpc

/-! ### The scan loop feeds the engine relative frame numbers -/

theorem processFrames_engine (s : VideoStream) (t : ℚ) (total : ℕ) :
    ∀ (cnt f : ℕ) (st : ScanState),
      (processFrames s t total (List.range' f cnt) st).engine
        = runEngineAux t f
            ((List.range' f (min cnt (s.length - st.pos))).map
              (fun j => s.mag (st.pos + (j - f))))
            st.engine := by
  intro cnt
  induction cnt with
  | zero =>
      intro f st
      rw [show min 0 (s.length - st.pos) = 0 by omega]
      rfl
  | succ k ih =>
      intro f st
      rw [List.range'_succ]
      show (if st.pos < s.length then
              processFrames s t total (List.range' (f + 1) k)
                ⟨st.pos + 1, engineStep t f (s.mag st.pos) st.engine,
                 recordProgress total f st.progress_calls⟩
            else ⟨st.pos, st.engine,
                  recordProgress total f st.progress_calls⟩).engine
          = _
      by_cases hpos : st.pos < s.length
      · rw [if_pos hpos]
        rw [ih (f + 1) ⟨st.pos + 1, engineStep t f (s.mag st.pos) st.engine,
          recordProgress total f st.progress_calls⟩]
        rw [show min (k + 1) (s.length - st.pos)
            = min k (s.length - (st.pos + 1)) + 1 by omega]
        rw [List.range'_succ]
        show runEngineAux t (f + 1) _ (engineStep t f (s.mag st.pos) st.engine)
            = runEngineAux t (f + 1) _
                (engineStep t f (s.mag (st.pos + (f - f))) st.engine)
        rw [show st.pos + (f - f) = st.pos by omega]
        congr 1
        apply List.map_congr_left
        intro j hj
        have hjge : f + 1 ≤ j := (List.mem_range'_1.mp hj).1
        have : st.pos + 1 + (j - (f + 1)) = st.pos + (j - f) := by omega
        rw [this]
      · rw [if_neg hpos]
        rw [show min (k + 1) (s.length - st.pos) = 0 by omega]
        rfl

/-! ### Further bridging and evaluation helpers -/

theorem avgAtStep_cast_iff (tz : ℤ) (ms : List ℤ) (n : ℕ)
    (h1 : 1 ≤ n) (h2 : n ≤ ms.length) :
    ((tz : ℚ) < avgAtStep (tz : ℚ) (castHist ms) n
      ↔ tz * ((runEngineZ tz (ms.take n)).motion_history.length : ℤ)
          < (runEngineZ tz (ms.take n)).motion_history.sum) := by
  have htake : (castHist ms).take n = castHist (ms.take n) := by
    simp [castHist, List.map_take]
  have hcast := runEngine_cast tz (ms.take n)
  have hlenQ : (runEngine (tz : ℚ) (castHist (ms.take n))).motion_history.length
      = min n history_size := by
    rw [runEngine_history, List.length_drop, castHist_length, List.length_take]
    omega
  have hzlen : (runEngineZ tz (ms.take n)).motion_history.length
      = min n history_size := by
    have e : (runEngineZ tz (ms.take n)).motion_history.length
        = (castHist (runEngineZ tz (ms.take n)).motion_history).length :=
      (castHist_length _).symm
    rw [e, ← hlenQ, hcast]
    rfl
  have hne : (runEngineZ tz (ms.take n)).motion_history ≠ [] := by
    intro hnil
    rw [hnil] at hzlen
    simp only [List.length_nil, history_size] at hzlen
    omega
  have e : avgAtStep (tz : ℚ) (castHist ms) n
      = rollingAverage (castHist (runEngineZ tz (ms.take n)).motion_history) := by
    show rollingAverage (runEngine (tz : ℚ) ((castHist ms).take n)).motion_history = _
    rw [htake, hcast]
    rfl
  rw [e]
  exact avg_gt_iff tz _ hne

theorem detect_motion_progress (s : VideoStream) (t : ℚ) :
    ∀ p ∈ (detect_motion s t).progress_calls, p.1 ≠ 0 ∧ p.2 ≠ 0 := by
  simp only [detect_motion]
  by_cases h1 : (skipFrames s (SKIP_SECONDS * s.fps) 0).1 = false
  · rw [if_pos h1]
    intro p hp
    simp at hp
  · rw [if_neg h1]
    by_cases h2 : (skipFrames s (SKIP_SECONDS * s.fps) 0).2 < s.length
    · rw [if_pos h2]
      intro p hp
      refine processFrames_progress s t s.total_frames
        (List.range' 1 (s.total_frames - 1))
        ⟨(skipFrames s (SKIP_SECONDS * s.fps) 0).2 + 1, ⟨[], none⟩, []⟩
        (by intro q hq; simp at hq) ?_ p hp
      intro n hn
      have hmem := List.mem_range'_1.mp hn
      omega
    · rw [if_neg h2]
      intro p hp
      simp at hp

theorem c1Stream_eq : c1Stream = c1StreamZ.toStream := by
  show VideoStream.mk 300 30 300 (fun f => if f < 150 then (0 : ℚ) else 20)
      = VideoStream.mk 300 30 300
          (fun f => ((if f < 150 then (0 : ℤ) else 20 : ℤ) : ℚ))
  congr 1
  funext f
  by_cases hf : f < 150 <;> simp [hf]

theorem c10Stream_eq : c10Stream = c10StreamZ.toStream := by
  show VideoStream.mk 10 0 5 (fun _ => (100 : ℚ))
      = VideoStream.mk 10 0 5 (fun _ => ((100 : ℤ) : ℚ))
  congr 1

theorem c2Mags_eq : c2Mags = castHist c2MagsZ := by
  simp [c2Mags, c2MagsZ, castHist]

/-! ### Claims -/

set_option maxRecDepth 40000

/-- Claim C1, counterexample: on the 300-frame stream of the claim (static
until frame 149, magnitude 20 from frame 150 on, reported fps 30, threshold
8, H = 5), `detect_motion` does not return event index 145: it returns 27
(the takeoff index is relative to the post-skip scan and the rolling
average first exceeds 8 two transitions after motion onset). -/
theorem c1_spec_145_refuted :
    (detect_motion c1Stream 8).takeoff ≠ some 145
    ∧ (detect_motion c1Stream 8).takeoff = some 27 := by
  have heval : detect_motion c1Stream 8 = detect_motionZ c1StreamZ 8 := by
    rw [c1Stream_eq, show (8 : ℚ) = ((8 : ℤ) : ℚ) by norm_num,
      detect_motion_cast]
  rw [heval]
  exact ⟨by decide, by decide⟩

/-- Claim C1 as amended: on the 300-frame stream of the claim, the
detection scan with threshold 8 and H = 5 returns event frame index 27:
the skip phase consumes frames 0–119, the reference frame is frame 120,
analyzed frame numbers restart at 1, motion onset (stream frame 150)
arrives at analyzed frame 30, the rolling average first exceeds 8 at
analyzed frame 32, and the event is backdated to 32 − 5 = 27. -/
theorem c1_end_to_end_returns_27 :
    (detect_motion c1Stream 8).takeoff = some 27 := by
  rw [c1Stream_eq, show (8 : ℚ) = ((8 : ℤ) : ℚ) by norm_num,
    detect_motion_cast]
  decide

/-- Claim C2, counterexample: for the sequence that is 0 on its first six
entries and 20 afterwards (threshold 8, so k = 6 counting magnitudes from
0, equivalently k = 7 counting engine frame numbers from 1), the engine
sets the event index to 4, not `max(0, k − H)` (which is 1, resp. 2): the
rolling average first exceeds the threshold two frames after onset. -/
theorem c2_backdate_from_onset_refuted :
    (runEngine 8 c2Mags).takeoff_frame = some 4
    ∧ (4 : ℕ) ≠ max 0 (6 - history_size)
    ∧ (4 : ℕ) ≠ max 0 (7 - history_size) := by
  refine ⟨?_, by decide, by decide⟩
  rw [c2Mags_eq, show (8 : ℚ) = ((8 : ℤ) : ℚ) by norm_num,
    runEngine_cast_takeoff]
  decide

/-- Claim C2 as amended: for every magnitude sequence below the threshold
before index k and equal to a constant above the threshold from index k on,
the event index is set to `max(0, f − H)` where `f` is the first frame at
which the rolling average over the then-current window exceeds the
threshold (`f` may lag the onset k while sub-threshold samples remain in
the window). -/
theorem c2_event_at_first_crossing (t c : ℚ) (mags : List ℚ) (k f : ℕ)
    (hbelow : ∀ i < mags.length, i < k → mags.getD i 0 < t)
    (habove : ∀ i < mags.length, k ≤ i → mags.getD i 0 = c)
    (htc : t < c)
    (hf1 : 1 ≤ f) (hf2 : f ≤ mags.length)
    (hcross : t < avgAtStep t mags f)
    (hfirst : ∀ j < f, 1 ≤ j → ¬(t < avgAtStep t mags j)) :
    (runEngine t mags).takeoff_frame = some (max 0 (f - history_size)) :=
  runEngine_first_crossing t mags f hf1 hf2 hcross
    (fun j hj1 hj2 => hfirst j hj2 hj1)

/-- Witness for C2: the amended claim at the counterexample sequence
(threshold 8, onset k = 6, first crossing f = 9, event `max(0, 9 − 5) = 4`). -/
theorem c2_event_at_first_crossing_witness :
    (runEngine ((8 : ℤ) : ℚ) (castHist c2MagsZ)).takeoff_frame
      = some (max 0 (9 - history_size)) :=
  c2_event_at_first_crossing ((8 : ℤ) : ℚ) ((20 : ℤ) : ℚ) (castHist c2MagsZ) 6 9
    (by decide) (by decide) (by decide) (by decide) (by decide)
    ((avgAtStep_cast_iff 8 c2MagsZ 9 (by decide) (by decide)).mpr (by decide))
    (by
      intro j hj hj1
      rw [avgAtStep_cast_iff 8 c2MagsZ j hj1
        (by have h12 : c2MagsZ.length = 12 := by decide
            omega)]
      interval_cases j <;> decide)

/-- Claim C3: the frame index fed to the decision engine counts analyzed
frames from 1 after the skip phase and the initial-reference read, so the
returned event index is computed from indices relative to stream frame
`frame_rate × skip_seconds + 1`: the scan result equals the engine run on
the magnitudes of the transitions ending at absolute frames
`skip + 1, skip + 2, …` renumbered from 1. -/
theorem c3_relative_indexing (s : VideoStream) (t : ℚ)
    (h : SKIP_SECONDS * s.fps + 1 ≤ s.length) :
    (detect_motion s t).takeoff
      = (runEngine t
          ((List.range' 1
              (min (s.total_frames - 1)
                (s.length - (SKIP_SECONDS * s.fps + 1)))).map
            (fun n => s.mag (SKIP_SECONDS * s.fps + n)))).takeoff_frame := by
  have hskip : skipFrames s (SKIP_SECONDS * s.fps) 0
      = (true, SKIP_SECONDS * s.fps) := by
    have hall := skipFrames_all s (SKIP_SECONDS * s.fps) 0 (by omega)
    simpa using hall
  simp only [detect_motion, hskip]
  rw [if_neg (by simp), if_pos (show SKIP_SECONDS * s.fps < s.length by omega)]
  show (process_frames_for_takeoff s (SKIP_SECONDS * s.fps + 1) t).engine.takeoff_frame
      = _
  unfold process_frames_for_takeoff
  rw [processFrames_engine s t s.total_frames (s.total_frames - 1) 1
    ⟨SKIP_SECONDS * s.fps + 1, ⟨[], none⟩, []⟩]
  dsimp only
  have hmap : (List.range' 1
        (min (s.total_frames - 1)
          (s.length - (SKIP_SECONDS * s.fps + 1)))).map
        (fun j => s.mag (SKIP_SECONDS * s.fps + 1 + (j - 1)))
      = (List.range' 1
          (min (s.total_frames - 1)
            (s.length - (SKIP_SECONDS * s.fps + 1)))).map
          (fun n => s.mag (SKIP_SECONDS * s.fps + n)) := by
    apply List.map_congr_left
    intro j hj
    have hj1 := (List.mem_range'_1.mp hj).1
    congr 1
    omega
  rw [hmap]
  rfl

/-- Witness for C3: the correspondence at a concrete stream with fps 0
(empty skip), 5 reported frames and 10 decodable frames. -/
theorem c3_relative_indexing_witness :
    (detect_motion c3Stream 8).takeoff
      = (runEngine 8
          ((List.range' 1
              (min (c3Stream.total_frames - 1)
                (c3Stream.length - (SKIP_SECONDS * c3Stream.fps + 1)))).map
            (fun n => c3Stream.mag (SKIP_SECONDS * c3Stream.fps + n)))).takeoff_frame :=
  c3_relative_indexing c3Stream 8 (by decide)

/-- Claim C4 (code bug): `detect_motion` does NOT release the capture
handle on the early exit taken when the stream ends during the skip phase
(line 24) or when the initial reference read fails (line 28); the normal
path does release it (line 36).  The claim — release on every exit path —
is the spec's stated resource discipline, which the code violates on the
two early paths. -/
theorem c4_release_skipped_on_early_exit :
    (detect_motion ⟨0, 30, 300, fun _ => 0⟩ 8).released = false
    ∧ (detect_motion ⟨120, 30, 300, fun _ => 0⟩ 8).released = false
    ∧ (detect_motion ⟨121, 30, 2, fun _ => 0⟩ 8).released = true :=
  ⟨by decide, by decide, by decide⟩

/-- Claim C5: the takeoff frame is write-once: if it is set (to v) after
any prefix of the magnitude sequence, the scan over the whole sequence
still returns v — later threshold crossings are ignored. -/
theorem c5_takeoff_write_once (t : ℚ) (mags : List ℚ) (n v : ℕ)
    (h : (runEngine t (mags.take n)).takeoff_frame = some v) :
    (runEngine t mags).takeoff_frame = some v :=
  runEngine_take_takeoff_some t mags n v h

/-- Witness for C5: a sequence with an immediate crossing (event index 0)
followed by a second sustained burst; the final result is still 0. -/
theorem c5_takeoff_write_once_witness :
    (runEngine ((8 : ℤ) : ℚ) (castHist c5MagsZ)).takeoff_frame = some 0 :=
  c5_takeoff_write_once ((8 : ℤ) : ℚ) (castHist c5MagsZ) 1 0
    (by
      rw [show (castHist c5MagsZ).take 1 = castHist (c5MagsZ.take 1) by
            simp [castHist, List.map_take],
        runEngine_cast_takeoff]
      decide)

/-- Claim C6: for every magnitude sequence, the history queue holds exactly
the most recent `min(length, H)` magnitudes (oldest evicted first), so its
length never exceeds H = 5 and equals exactly H once H or more magnitudes
have been appended. -/
theorem c6_history_bounded_fifo (t : ℚ) (mags : List ℚ) :
    (runEngine t mags).motion_history = mags.drop (mags.length - history_size)
    ∧ (runEngine t mags).motion_history.length = min mags.length history_size
    ∧ (runEngine t mags).motion_history.length ≤ history_size := by
  have h := runEngine_history t mags
  have hl : (runEngine t mags).motion_history.length
      = min mags.length history_size := by
    rw [h, List.length_drop]
    omega
  exact ⟨h, hl, by rw [hl]; omega⟩

/-- Claim C7: during warm-up (n ≤ H magnitudes appended, n ≥ 1), the
rolling average used by the engine at step n is the arithmetic mean of
exactly the n magnitudes seen so far — no zero padding to length H. -/
theorem c7_warmup_average (t : ℚ) (mags : List ℚ) (n : ℕ)
    (h1 : 1 ≤ n) (h2 : n ≤ history_size) (h3 : n ≤ mags.length) :
    avgAtStep t mags n = (mags.take n).sum / (n : ℚ) := by
  have e1 : (mags.take n).length = n := by
    rw [List.length_take]
    omega
  show rollingAverage (runEngine t (mags.take n)).motion_history = _
  rw [runEngine_history t (mags.take n), e1,
    show n - history_size = 0 by omega, List.drop_zero]
  show (mags.take n).sum / ((mags.take n).length : ℚ) = _
  rw [e1]

/-- Witness for C7: at step 3 of the sequence [1, 2, 3], the rolling
average is (1 + 2 + 3) / 3, a mean over the 3 samples seen. -/
theorem c7_warmup_average_witness :
    avgAtStep 8 c7Mags 3 = (c7Mags.take 3).sum / ((3 : ℕ) : ℚ) :=
  c7_warmup_average 8 c7Mags 3 (by decide) (by decide) (by decide)

/-- Claim C8: with fps 30 and skip_seconds 4, the skip phase consumes
exactly 120 raw frames (read positions 0 through 119) before any analysis;
and if fewer than 120 frames are decodable, `detect_motion` returns the
no-event result `(None, None)` rather than raising. -/
theorem c8_skip_phase (s : VideoStream) (t : ℚ) (hfps : s.fps = 30) :
    (120 ≤ s.length →
      skipFrames s (SKIP_SECONDS * s.fps) 0 = (true, 120))
    ∧ (s.length < 120 →
      (detect_motion s t).takeoff = none ∧ (detect_motion s t).landing = none) := by
  constructor
  · intro hlen
    rw [hfps, show SKIP_SECONDS * 30 = 120 from rfl]
    exact skipFrames_all s 120 0 (by omega)
  · intro hlen
    have hf : (skipFrames s (SKIP_SECONDS * s.fps) 0).1 = false := by
      rw [hfps, show SKIP_SECONDS * 30 = 120 from rfl]
      exact skipFrames_short s 120 0 (by omega) (by omega)
    simp only [detect_motion]
    rw [if_pos hf]
    exact ⟨rfl, rfl⟩

/-- Witness for C8: a stream reporting fps 30 with only 60 decodable
frames. -/
theorem c8_skip_phase_witness :
    (120 ≤ (⟨60, 30, 300, fun _ => (0 : ℚ)⟩ : VideoStream).length →
      skipFrames ⟨60, 30, 300, fun _ => (0 : ℚ)⟩
        (SKIP_SECONDS * (⟨60, 30, 300, fun _ => (0 : ℚ)⟩ : VideoStream).fps) 0
        = (true, 120))
    ∧ ((⟨60, 30, 300, fun _ => (0 : ℚ)⟩ : VideoStream).length < 120 →
      (detect_motion ⟨60, 30, 300, fun _ => (0 : ℚ)⟩ 8).takeoff = none
      ∧ (detect_motion ⟨60, 30, 300, fun _ => (0 : ℚ)⟩ 8).landing = none) :=
  c8_skip_phase ⟨60, 30, 300, fun _ => (0 : ℚ)⟩ 8 rfl

/-- Claim C9: even for degenerate metadata (reported total frame count 0 or
frame rate 0), every division the scan performs has a nonzero denominator:
`print_progress` is only reached with frame number ≥ 30 and total ≥ 31 (so
both of its denominators are nonzero), with total 0 progress reporting is
skipped entirely, and the initial estimate divides by the constant 30. -/
theorem c9_division_guards (s : VideoStream) (t : ℚ)
    (hdeg : s.total_frames = 0 ∨ s.fps = 0) :
    (∀ p ∈ (detect_motion s t).progress_calls,
      ((p.1 : ℚ) ≠ 0 ∧ (p.2 : ℚ) ≠ 0))
    ∧ (s.total_frames = 0 → (detect_motion s t).progress_calls = [])
    ∧ (FRAMES_PER_SECOND : ℚ) ≠ 0 := by
  refine ⟨?_, ?_, by norm_num [FRAMES_PER_SECOND]⟩
  · intro p hp
    have hnz := detect_motion_progress s t p hp
    exact ⟨Nat.cast_ne_zero.mpr hnz.1, Nat.cast_ne_zero.mpr hnz.2⟩
  · intro h0
    simp only [detect_motion]
    by_cases h1 : (skipFrames s (SKIP_SECONDS * s.fps) 0).1 = false
    · rw [if_pos h1]
    · rw [if_neg h1]
      by_cases h2 : (skipFrames s (SKIP_SECONDS * s.fps) 0).2 < s.length
      · rw [if_pos h2]
        show (process_frames_for_takeoff s
            ((skipFrames s (SKIP_SECONDS * s.fps) 0).2 + 1) t).progress_calls = []
        unfold process_frames_for_takeoff
        rw [h0]
        rfl
      · rw [if_neg h2]

/-- Witness for C9: a stream with reported total frame count 0 (and fps 30,
200 decodable frames): the scan performs no progress division at all. -/
theorem c9_division_guards_witness :
    (∀ p ∈ (detect_motion ⟨200, 30, 0, fun _ => (0 : ℚ)⟩ 8).progress_calls,
      ((p.1 : ℚ) ≠ 0 ∧ (p.2 : ℚ) ≠ 0))
    ∧ ((⟨200, 30, 0, fun _ => (0 : ℚ)⟩ : VideoStream).total_frames = 0 →
      (detect_motion ⟨200, 30, 0, fun _ => (0 : ℚ)⟩ 8).progress_calls = [])
    ∧ (FRAMES_PER_SECOND : ℚ) ≠ 0 :=
  c9_division_guards ⟨200, 30, 0, fun _ => (0 : ℚ)⟩ 8 (Or.inl rfl)

/-- Claim C10: the driver trims exactly the non-None results (`if takeoff
is not None`), and an event index of 0 is a real non-None result: on a
stream whose first analyzed transition already crosses the threshold,
`detect_motion` returns `some 0` and the trim step is invoked. -/
theorem c10_zero_event_distinguished :
    (∀ r : DetectResult, process_video_action r = true ↔ r.takeoff ≠ none)
    ∧ (detect_motion c10Stream 8).takeoff = some 0
    ∧ process_video_action (detect_motion c10Stream 8) = true := by
  have heval : detect_motion c10Stream 8 = detect_motionZ c10StreamZ 8 := by
    rw [c10Stream_eq, show (8 : ℚ) = ((8 : ℤ) : ℚ) by norm_num,
      detect_motion_cast]
  refine ⟨?_, ?_, ?_⟩
  · intro r
    simp [process_video_action, Option.isSome_iff_ne_none]
  · rw [heval]
    decide
  · show (detect_motion c10Stream 8).takeoff.isSome = true
    rw [heval]
    decide

end FPV
